import Mathlib

/-!
Verification of the adaptive chess bot's core (`src/api.py`).

The Python module is shallowly embedded:

* Python floats are modelled as real numbers (`ℝ`) where transcendental
  arithmetic occurs (`_estimate_elo`) and as rationals (`ℚ`) where only
  field arithmetic occurs (running averages), so every arithmetic law is
  exact rather than approximate.
* The chess-rules library (python-chess) is an external collaborator; it is
  modelled as an oracle record `Rules` over an abstract move type, and a
  board is identified with its move stack (`board.push` conses a move,
  `board.pop` drops the head).
* The UCI engine process is an external collaborator; one run of it is a
  script of replies, consumed one entry per request, where `none` models a
  communication failure (a raised exception) at that request.
* A Python exception escaping a code path is modelled by `Except.error`;
  partially mutated state at the moment the exception is raised is returned
  alongside, exactly as the mutated Python objects persist.
-/

namespace ChessBot

/-- Truncation toward zero, modelling Python's `int()` conversion applied to
a float. -/
noncomputable def intTrunc (x : ℝ) : ℤ := if 0 ≤ x then ⌊x⌋ else -⌊-x⌋

/-- The local variable `elo` of `_estimate_elo` in `src/api.py`:
`323422 * (acpl ** -1.2305)`, the empirical power law. -/
noncomputable def eloRaw (acpl : ℝ) : ℝ := 323422 * acpl ^ (-1.2305 : ℝ)

/-- Embedding of `_estimate_elo` from `src/api.py` (lines 32-49): 2800 for
non-positive average centipawn loss, otherwise the power law, clamped by the
two `if` branches and converted with `int(...)`. -/
noncomputable def _estimate_elo (acpl : ℝ) : ℤ :=
  if acpl ≤ 0 then 2800
  else if 2800 < eloRaw acpl then 2800
  else if eloRaw acpl < 400 then 400
  else intTrunc (eloRaw acpl)

/-- Embedding of `_adaptive_depth` from `src/api.py` (lines 55-75): the
chain of `if elo < …` tests selecting the bot's search depth. -/
def _adaptive_depth (elo : ℤ) : ℤ :=
  if elo < 2000 then 1
  else if elo < 2200 then 2
  else if elo < 2350 then 3
  else if elo < 2500 then 4
  else if elo < 2650 then 5
  else if elo < 2750 then 6
  else if elo < 2900 then 7
  else 8

/-- Rendering of the claim's words for the rating estimator: the power law
clamped to the closed interval `[400, 2800]` and then truncated toward
zero.  Compared against the source embedding `_estimate_elo`. -/
noncomputable def estimateRatingSpec (acpl : ℝ) : ℤ :=
  if acpl ≤ 0 then 2800
  else intTrunc (max 400 (min 2800 (323422 * acpl ^ (-1.2305 : ℝ))))

/-- Rendering of the claim's words for depth selection: the step function
with both endpoints of every band spelled out.  Compared against the source
embedding `_adaptive_depth`. -/
def selectDepthSpec (r : ℤ) : ℤ :=
  if r < 2000 then 1
  else if 2000 ≤ r ∧ r < 2200 then 2
  else if 2200 ≤ r ∧ r < 2350 then 3
  else if 2350 ≤ r ∧ r < 2500 then 4
  else if 2500 ≤ r ∧ r < 2650 then 5
  else if 2650 ≤ r ∧ r < 2750 then 6
  else if 2750 ≤ r ∧ r < 2900 then 7
  else 8

lemma intTrunc_of_nonneg {x : ℝ} (h : 0 ≤ x) : intTrunc x = ⌊x⌋ := if_pos h

lemma eloRaw_pos {x : ℝ} (hx : 0 < x) : 0 < eloRaw x := by
  have := Real.rpow_pos_of_pos hx (-1.2305 : ℝ)
  unfold eloRaw
  positivity

/-- The source estimator agrees with the clamp-then-truncate description. -/
lemma estimate_elo_eq_spec (x : ℝ) : _estimate_elo x = estimateRatingSpec x := by
  unfold _estimate_elo estimateRatingSpec
  by_cases h0 : x ≤ 0
  · simp [h0]
  · have hx : 0 < x := lt_of_not_le h0
    have hpos : 0 < eloRaw x := eloRaw_pos hx
    rw [if_neg h0, if_neg h0]
    show _ = intTrunc (max 400 (min 2800 (eloRaw x)))
    by_cases h1 : 2800 < eloRaw x
    · rw [if_pos h1]
      rw [min_eq_left (le_of_lt h1)]
      rw [max_eq_right (by norm_num : (400 : ℝ) ≤ 2800)]
      rw [intTrunc_of_nonneg (by norm_num : (0 : ℝ) ≤ 2800)]
      norm_num [Int.floor_eq_iff]
    · rw [if_neg h1]
      push_neg at h1
      rw [min_eq_right h1]
      by_cases h2 : eloRaw x < 400
      · rw [if_pos h2]
        rw [max_eq_left (le_of_lt h2)]
        rw [intTrunc_of_nonneg (by norm_num : (0 : ℝ) ≤ 400)]
        norm_num [Int.floor_eq_iff]
      · push_neg at h2
        rw [if_neg (not_lt.mpr h2)]
        rw [max_eq_right h2]

/-- Claim C1: for every input, `_estimate_elo` returns 2800 on non-positive
average loss and otherwise the power law `323422 * acpl ^ (-1.2305)` clamped
to `[400, 2800]` and truncated toward zero; as a total function it is
deterministic and never fails. -/
theorem estimate_elo_clamped_power_law (x : ℝ) :
    _estimate_elo x = estimateRatingSpec x ∧ (x ≤ 0 → _estimate_elo x = 2800) := by
  refine ⟨estimate_elo_eq_spec x, fun h => ?_⟩
  unfold _estimate_elo
  rw [if_pos h]

/-- Witness for claim C1 at the non-positive input -1. -/
theorem estimate_elo_clamped_power_law_witness :
    _estimate_elo (-1) = estimateRatingSpec (-1) ∧ _estimate_elo (-1) = 2800 :=
  ⟨(estimate_elo_clamped_power_law (-1)).1,
   (estimate_elo_clamped_power_law (-1)).2 (by norm_num)⟩

/-- Claim C2: `_adaptive_depth` is exactly the claimed step function, with
every boundary mapped as listed; in particular rating 2000 gives depth 2. -/
theorem adaptive_depth_step_function :
    (∀ r : ℤ, _adaptive_depth r = selectDepthSpec r) ∧ _adaptive_depth 2000 = 2 := by
  constructor
  · intro r
    unfold _adaptive_depth selectDepthSpec
    split_ifs <;> omega
  · decide

lemma eloRaw_antitone {x y : ℝ} (hx : 0 < x) (hxy : x ≤ y) : eloRaw y ≤ eloRaw x := by
  unfold eloRaw
  have h := Real.rpow_le_rpow_of_nonpos hx hxy (by norm_num : (-1.2305 : ℝ) ≤ 0)
  nlinarith [Real.rpow_pos_of_pos hx (-1.2305 : ℝ)]

lemma estimate_elo_le_2800 (x : ℝ) : _estimate_elo x ≤ 2800 := by
  unfold _estimate_elo
  split_ifs with h0 h1 h2
  · exact le_refl _
  · exact le_refl _
  · norm_num
  · push_neg at h1
    rw [intTrunc_of_nonneg (by push_neg at h2; linarith)]
    have : (⌊eloRaw x⌋ : ℤ) ≤ ⌊(2800 : ℝ)⌋ := Int.floor_le_floor h1
    simpa using this

lemma le_400_estimate_elo (x : ℝ) (h0 : ¬ x ≤ 0) : 400 ≤ _estimate_elo x := by
  unfold _estimate_elo
  split_ifs with h1 h2
  · norm_num
  · exact le_refl _
  · push_neg at h2
    rw [intTrunc_of_nonneg (by linarith)]
    exact Int.le_floor.mpr (by exact_mod_cast h2)

lemma estimate_elo_antitone {x y : ℝ} (hx : 0 < x) (hxy : x ≤ y) :
    _estimate_elo y ≤ _estimate_elo x := by
  have hy : 0 < y := lt_of_lt_of_le hx hxy
  have hba : eloRaw y ≤ eloRaw x := eloRaw_antitone hx hxy
  have hx0 : ¬ x ≤ 0 := not_le.mpr hx
  have hy0 : ¬ y ≤ 0 := not_le.mpr hy
  by_cases hxa : 2800 < eloRaw x
  · calc _estimate_elo y ≤ 2800 := estimate_elo_le_2800 y
      _ = _estimate_elo x := by unfold _estimate_elo; rw [if_neg hx0, if_pos hxa]
  · by_cases hxb : eloRaw x < 400
    · have hyb : eloRaw y < 400 := lt_of_le_of_lt hba hxb
      have hya : ¬ 2800 < eloRaw y := by push_neg; linarith
      unfold _estimate_elo
      rw [if_neg hx0, if_neg hxa, if_pos hxb, if_neg hy0, if_neg hya, if_pos hyb]
    · have hxval : _estimate_elo x = ⌊eloRaw x⌋ := by
        unfold _estimate_elo
        rw [if_neg hx0, if_neg hxa, if_neg hxb,
          intTrunc_of_nonneg (by push_neg at hxb; linarith)]
      by_cases hya : 2800 < eloRaw y
      · exact absurd (lt_of_lt_of_le hya hba) hxa
      · by_cases hyb : eloRaw y < 400
        · rw [hxval]
          have : (400 : ℤ) ≤ ⌊eloRaw x⌋ := Int.le_floor.mpr (by push_neg at hxb; exact_mod_cast hxb)
          unfold _estimate_elo
          rw [if_neg hy0, if_neg hya, if_pos hyb]
          exact this
        · have hyval : _estimate_elo y = ⌊eloRaw y⌋ := by
            unfold _estimate_elo
            rw [if_neg hy0, if_neg hya, if_neg hyb,
              intTrunc_of_nonneg (by push_neg at hyb; linarith)]
          rw [hxval, hyval]
          exact Int.floor_le_floor hba

lemma rpow_25_lt : (25 : ℝ) ^ (1.2305 : ℝ) < 56 := by
  have h1 : (25 : ℝ) ^ (1.2305 : ℝ) ≤ (25 : ℝ) ^ ((5 : ℝ) / 4) :=
    Real.rpow_le_rpow_of_exponent_le (by norm_num) (by norm_num)
  have h2 : ((25 : ℝ) ^ ((5 : ℝ) / 4)) ^ (4 : ℕ) = (25 : ℝ) ^ (5 : ℕ) := by
    rw [← Real.rpow_natCast ((25 : ℝ) ^ ((5 : ℝ) / 4)) 4,
      ← Real.rpow_mul (by norm_num : (0 : ℝ) ≤ 25), ← Real.rpow_natCast (25 : ℝ) 5]
    norm_num
  have h3 : ((25 : ℝ) ^ ((5 : ℝ) / 4)) < 56 := by
    apply lt_of_pow_lt_pow_left₀ 4 (by norm_num : (0 : ℝ) ≤ 56)
    rw [h2]
    norm_num
  exact lt_of_le_of_lt h1 h3

lemma rpow_100_gt : (116 : ℝ) < (100 : ℝ) ^ (1.2305 : ℝ) := by
  have h1 : (100 : ℝ) ^ ((9 : ℝ) / 8) ≤ (100 : ℝ) ^ (1.2305 : ℝ) :=
    Real.rpow_le_rpow_of_exponent_le (by norm_num) (by norm_num)
  have h2 : ((100 : ℝ) ^ ((9 : ℝ) / 8)) ^ (8 : ℕ) = (100 : ℝ) ^ (9 : ℕ) := by
    rw [← Real.rpow_natCast ((100 : ℝ) ^ ((9 : ℝ) / 8)) 8,
      ← Real.rpow_mul (by norm_num : (0 : ℝ) ≤ 100), ← Real.rpow_natCast (100 : ℝ) 9]
    norm_num
  have h3 : (116 : ℝ) < (100 : ℝ) ^ ((9 : ℝ) / 8) := by
    apply lt_of_pow_lt_pow_left₀ 8 (Real.rpow_pos_of_pos (by norm_num) _).le
    rw [h2]
    norm_num
  exact lt_of_lt_of_le h3 h1

lemma eloRaw_div {x : ℝ} (hx : 0 ≤ x) : eloRaw x = 323422 / x ^ (1.2305 : ℝ) := by
  unfold eloRaw
  rw [show (-1.2305 : ℝ) = -(1.2305 : ℝ) by norm_num, Real.rpow_neg hx, div_eq_mul_inv]

lemma estimate_elo_25 : _estimate_elo 25 = 2800 := by
  have hpos : (0 : ℝ) < (25 : ℝ) ^ (1.2305 : ℝ) := Real.rpow_pos_of_pos (by norm_num) _
  have h : 2800 < eloRaw 25 := by
    rw [eloRaw_div (by norm_num : (0 : ℝ) ≤ 25), lt_div_iff₀ hpos]
    calc (2800 : ℝ) * (25 : ℝ) ^ (1.2305 : ℝ) < 2800 * 56 :=
          mul_lt_mul_of_pos_left rpow_25_lt (by norm_num)
      _ ≤ 323422 := by norm_num
  unfold _estimate_elo
  rw [if_neg (by norm_num : ¬ (25 : ℝ) ≤ 0), if_pos h]

lemma estimate_elo_100_lt : _estimate_elo 100 < 2800 := by
  have hpos : (0 : ℝ) < (100 : ℝ) ^ (1.2305 : ℝ) := Real.rpow_pos_of_pos (by norm_num) _
  have h : eloRaw 100 < 2800 := by
    rw [eloRaw_div (by norm_num : (0 : ℝ) ≤ 100), div_lt_iff₀ hpos]
    calc (323422 : ℝ) ≤ 2800 * 116 := by norm_num
      _ < 2800 * (100 : ℝ) ^ (1.2305 : ℝ) := mul_lt_mul_of_pos_left rpow_100_gt (by norm_num)
  unfold _estimate_elo
  rw [if_neg (by norm_num : ¬ (100 : ℝ) ≤ 0), if_neg (not_lt.mpr h.le)]
  split_ifs with h2
  · norm_num
  · push_neg at h2
    rw [intTrunc_of_nonneg (by linarith)]
    exact Int.floor_lt.mpr (by exact_mod_cast h)

/-- Claim C9: the rating estimator is non-increasing on positive inputs, and
in particular an average loss of 25 yields a strictly higher rating than an
average loss of 100. -/
theorem estimate_elo_nonincreasing :
    (∀ x y : ℝ, 0 < x → x ≤ y → _estimate_elo y ≤ _estimate_elo x) ∧
    _estimate_elo 100 < _estimate_elo 25 := by
  refine ⟨fun x y hx hxy => estimate_elo_antitone hx hxy, ?_⟩
  rw [estimate_elo_25]
  exact estimate_elo_100_lt

/-- Witness for claim C9 at the concrete pair (1, 2). -/
theorem estimate_elo_nonincreasing_witness : _estimate_elo 2 ≤ _estimate_elo 1 :=
  estimate_elo_nonincreasing.1 1 2 one_pos one_le_two

/-- Abstract chess moves; the rules library interprets them. -/
abbrev Move := Nat

/-- One reply of the engine process: either a best move (for `engine.play`)
or a relative centipawn score with mate mapped to plus or minus 10000 (for
`engine.analyse`). -/
inductive EngineAns where
  | bestMove (m : Move)
  | evalScore (v : Int)
deriving DecidableEq

/-- One run of the engine process: the scripted replies, consumed one entry
per request; a `none` entry is a communication failure (exception) at that
request. -/
abbrev EngineScript := List (Option EngineAns)

/-- An `engine.play` request: consumes the head of the script; anything but
a scripted best move raises. -/
def engPlay : EngineScript → Except Unit Move × EngineScript
  | some (EngineAns.bestMove m) :: rest => (Except.ok m, rest)
  | _ :: rest => (Except.error (), rest)
  | [] => (Except.error (), [])

/-- An `engine.analyse` request followed by `["score"].relative.score
(mate_score=10000)`: consumes the head of the script; anything but a
scripted score raises. -/
def engAnalyse : EngineScript → Except Unit Int × EngineScript
  | some (EngineAns.evalScore v) :: rest => (Except.ok v, rest)
  | _ :: rest => (Except.error (), rest)
  | [] => (Except.error (), [])

/-- The per-session dictionary of `src/api.py` (`_sess`, lines 92-106).  The
board is its move stack (`[]` is the starting position; `push` conses);
`engine` is carried outside the record as an `EngineScript`. -/
structure Session where
  board : List Move
  depth : Int
  moves : List String
  strength : Int × String
  total_loss : Int
  num_moves : Nat
  cpl_losses : List Int
  avg_losses : List ℚ
deriving DecidableEq

/-- The fresh session dictionary built by `_sess` for an unknown session id
(lines 95-105 of `src/api.py`). -/
def initialSession : Session :=
  { board := [], depth := 4, moves := [], strength := (1200, "Initial"), total_loss := 0, num_moves := 0, cpl_losses := [], avg_losses := [] }

/-- Oracle view of the python-chess board library (the external Board/Rules
Adapter): parsing, legality, game termination, rendering.  `parseUci` may
return a move that is not legal; the endpoint re-checks legality itself, so
both behaviours of `Board.parse_uci` (raising on illegal input or not) are
covered. -/
structure Rules where
  parseUci : List Move → String → Option Move
  legal : List Move → Move → Bool
  gameOver : List Move → Bool
  san : List Move → Move → String
  fen : List Move → String
  isCheck : List Move → Bool
  result : List Move → String

/-- Side to move of a move stack: python-chess starts with White and flips
the `turn` flag on every push. -/
def turnWhite (b : List Move) : Bool := b.length % 2 == 0

/-- Snapshot returned by `_state` (lines 109-126 of `src/api.py`). -/
structure StateView where
  fen : String
  turn : String
  status : String
  depth : Int
  moves : List String
  strength : Int × String
  cpl_losses : List Int
  avg_losses : List ℚ
deriving DecidableEq

/-- Embedding of `_state` from `src/api.py`. -/
def _state (R : Rules) (sess : Session) : StateView :=
  { fen := R.fen sess.board
    turn := if turnWhite sess.board then "white" else "black"
    status :=
      if R.gameOver sess.board then "Game over (" ++ R.result sess.board ++ ")"
      else (if turnWhite sess.board then "White" else "Black") ++
        (if R.isCheck sess.board then " to move (check)" else " to move")
    depth := sess.depth
    moves := sess.moves
    strength := sess.strength
    cpl_losses := sess.cpl_losses
    avg_losses := sess.avg_losses }

/-- Rendering of Python's `f"{avg_loss:.1f}"`: the average in tenths.
Rounding of an exact rational to one decimal is immaterial to every claim;
only the surrounding accumulator arithmetic is. -/
def fmtTenths (q : ℚ) : String := toString (round (q * 10)) ++ "e-1"

/-- Embedding of `_strength` from `src/api.py` (lines 128-166).  Board
pushes and pops are written out exactly as in the source, so a failing
engine request leaves behind exactly the mutations made before it raised:
the board push of the engine's best move (or of the player's move) is NOT
reverted when the following `engine.analyse` raises. -/
noncomputable def _strength (sess : Session) (move : Move) (es : EngineScript) :
    Except Unit (Int × String) × Session × EngineScript :=
  match engPlay es with
  | (Except.error _, es1) => (Except.error (), sess, es1)
  | (Except.ok best_move, es1) =>
    let sessA := { sess with board := best_move :: sess.board }
    match engAnalyse es1 with
    | (Except.error _, es2) => (Except.error (), sessA, es2)
    | (Except.ok best_eval, es2) =>
      let sessB := { sessA with board := sessA.board.tail }
      let sessC := { sessB with board := move :: sessB.board }
      match engAnalyse es2 with
      | (Except.error _, es3) => (Except.error (), sessC, es3)
      | (Except.ok played_eval, es3) =>
        let sessD := { sessC with board := sessC.board.tail }
        let cpl := played_eval - best_eval
        let loss := max 0 cpl
        let sessE := { sessD with
          cpl_losses := sessD.cpl_losses ++ [loss],
          total_loss := sessD.total_loss + loss,
          num_moves := sessD.num_moves + 1 }
        let avg_loss : ℚ := (sessE.total_loss : ℚ) / (sessE.num_moves : ℚ)
        let sessF := { sessE with avg_losses := sessE.avg_losses ++ [avg_loss] }
        let elo := _estimate_elo (avg_loss : ℝ)
        let sessG := { sessF with depth := _adaptive_depth elo }
        (Except.ok (elo, "ACPL: " ++ fmtTenths avg_loss ++ ", Bot depth: " ++
          toString sessG.depth), sessG, es3)

/-- Embedding of `_apply_move` from `src/api.py` (lines 169-174). -/
def _apply_move (R : Rules) (sess : Session) (move : Move) : String × Session :=
  let san := R.san sess.board move
  (san, { sess with board := move :: sess.board, moves := sess.moves ++ [san] })

/-- Embedding of the `new_session` endpoint body (lines 177-188): the
session is created if absent and every field except the engine handle is
reinitialised, with depth taken from the validated request. -/
def new_session (sess : Session) (depth : Int) : Session :=
  { sess with
    depth := depth, board := [], moves := [], strength := (1200, "Initial"),
    total_loss := 0, num_moves := 0, cpl_losses := [], avg_losses := [] }

/-- Embedding of the `player_move` endpoint body (lines 197-209).  The
`try` block catches the parse failure, the explicit illegal-move
`ValueError`, and any exception escaping `_strength`, turning each into an
HTTP 400; a failing `_strength` keeps whatever it had mutated in place. -/
noncomputable def player_move (R : Rules) (sess : Session) (mv : String) (es : EngineScript) :
    Except Unit StateView × Session × EngineScript :=
  match R.parseUci sess.board mv with
  | none => (Except.error (), sess, es)
  | some move =>
    if R.legal sess.board move then
      match _strength sess move es with
      | (Except.error _, sess1, es1) => (Except.error (), sess1, es1)
      | (Except.ok st, sess1, es1) =>
        let sess2 := { sess1 with strength := st }
        (Except.ok (_state R (_apply_move R sess2 move).2), (_apply_move R sess2 move).2, es1)
    else (Except.error (), sess, es)

/-- Embedding of the `bot_move` endpoint body (lines 212-227): explicit
game-over and turn guards, then one engine request whose failure is caught
as an HTTP 503. -/
def bot_move (R : Rules) (sess : Session) (es : EngineScript) :
    Except Unit StateView × Session × EngineScript :=
  if R.gameOver sess.board then (Except.error (), sess, es)
  else if turnWhite sess.board then (Except.error (), sess, es)
  else
    match engPlay es with
    | (Except.error _, es1) => (Except.error (), sess, es1)
    | (Except.ok m, es1) =>
      let san := R.san sess.board m
      let sess1 := { sess with board := m :: sess.board, moves := sess.moves ++ [san] }
      (Except.ok (_state R sess1), sess1, es1)

/-- The process-wide session registry `sessions` of `src/api.py`. -/
abbrev Registry := List (String × Session)

/-- Embedding of `_sess` (lines 92-106): look the id up, creating the
default session on a miss. -/
def _sess (reg : Registry) (id : String) : Session × Registry :=
  match reg.lookup id with
  | some s => (s, reg)
  | none => (initialSession, (id, initialSession) :: reg)

/-- Embedding of the `get_session` endpoint (lines 191-194): a plain read,
which still creates the session if the id is unknown. -/
def get_session (R : Rules) (reg : Registry) (id : String) : StateView × Registry :=
  ((_state R (_sess reg id).1), (_sess reg id).2)

/-- Session states reachable through the endpoints: creation with the
defaults, reset with a request-validated depth, and human/bot moves with an
arbitrary rules oracle and engine script — including every failing run,
whose partially mutated session is kept exactly as the Python objects are. -/
inductive Reachable : Session → Prop where
  | init : Reachable initialSession
  | reset (s : Session) (d : Int) : Reachable s → 1 ≤ d → d ≤ 8 →
      Reachable (new_session s d)
  | human (s : Session) (R : Rules) (mv : String) (es : EngineScript) :
      Reachable s → Reachable (player_move R s mv es).2.1
  | bot (s : Session) (R : Rules) (es : EngineScript) :
      Reachable s → Reachable (bot_move R s es).2.1

/-- Rules oracle for an ongoing position in which the submitted notation
parses and the move is legal. -/
def permissiveRules : Rules :=
  { parseUci := fun _ _ => some 0
    legal := fun _ _ => true
    gameOver := fun _ => false
    san := fun _ _ => "m"
    fen := fun _ => "startpos"
    isCheck := fun _ => false
    result := fun _ => "*" }

/-- Rules oracle for a position whose game is over while legal moves still
exist, as python-chess reports for an insufficient-material draw such as
K vs K (FEN `8/8/8/4k3/8/8/8/4K3 w - - 0 1`): `is_game_over()` is true, yet
`e1e2` parses and lies in `legal_moves`. -/
def deadDrawRules : Rules :=
  { parseUci := fun _ _ => some 0
    legal := fun _ _ => true
    gameOver := fun _ => true
    san := fun _ _ => "Ke2"
    fen := fun _ => "8/8/8/4k3/8/8/8/4K3 w - - 0 1"
    isCheck := fun _ => false
    result := fun _ => "1/2-1/2" }

/-- Rules oracle for a game-over position in which the submitted notation
parses but the move is illegal (e.g. checkmate: the legal-move set is
empty). -/
def matedRules : Rules :=
  { parseUci := fun _ _ => some 0
    legal := fun _ _ => false
    gameOver := fun _ => true
    san := fun _ _ => "x"
    fen := fun _ => "mated"
    isCheck := fun _ => true
    result := fun _ => "0-1" }

/-- Engine script for one successful `_strength` run producing a raw
centipawn loss of `l`: a best move, the evaluation after it, and the
evaluation after the player's move. -/
def lossScript (l : Int) : EngineScript :=
  [some (EngineAns.bestMove 1), some (EngineAns.evalScore 0), some (EngineAns.evalScore l)]

lemma player_move_parse_fail (R : Rules) (s : Session) (mv : String) (es : EngineScript)
    (hp : R.parseUci s.board mv = none) :
    player_move R s mv es = (Except.error (), s, es) := by
  unfold player_move
  rw [hp]

lemma player_move_illegal (R : Rules) (s : Session) (mv : String) (es : EngineScript)
    (m : Move) (hp : R.parseUci s.board mv = some m) (hl : R.legal s.board m = false) :
    player_move R s mv es = (Except.error (), s, es) := by
  unfold player_move
  rw [hp]
  simp [hl]

/-- Claim C5: a well-formed human move that is not in the legal-move set is
rejected with an error, leaves the whole session unchanged, and performs no
engine request (the engine script is untouched: the Strength Estimator is
never invoked). -/
theorem illegal_move_rejected_no_estimator (R : Rules) (s : Session) (mv : String)
    (es : EngineScript) (m : Move) (hp : R.parseUci s.board mv = some m)
    (hl : R.legal s.board m = false) :
    player_move R s mv es = (Except.error (), s, es) :=
  player_move_illegal R s mv es m hp hl

/-- Witness for claim C5: a mated position with a parseable but illegal
move. -/
theorem illegal_move_rejected_no_estimator_witness :
    player_move matedRules initialSession "a7a5" (lossScript 20) =
      (Except.error (), initialSession, lossScript 20) :=
  illegal_move_rejected_no_estimator matedRules initialSession "a7a5" (lossScript 20) 0 rfl rfl

/-- Counterexample to claim C4: in an insufficient-material (dead draw)
position the game is over, yet a legal human move is accepted — the request
succeeds and the move history changes, because `player_move` never checks
`board.is_game_over()`. -/
theorem game_over_human_move_accepted :
    deadDrawRules.gameOver initialSession.board = true ∧
    (player_move deadDrawRules initialSession "e1e2" (lossScript 20)).1.isOk = true ∧
    (player_move deadDrawRules initialSession "e1e2" (lossScript 20)).2.1.moves = ["Ke2"] ∧
    initialSession.moves = [] :=
  ⟨rfl, rfl, rfl, rfl⟩

/-- Claim C4 amended: a bot-move request on a finished game is always
rejected with no state change, and a human-move request is rejected with no
state change whenever the submitted move fails to parse or is not in the
legal-move set — which is what happens in checkmate and stalemate, where no
legal move exists.  (In game-over positions that still have legal moves,
such as insufficient-material draws, a legal human move is accepted.) -/
theorem game_over_rejections (R : Rules) (s : Session) (es : EngineScript) (mv : String)
    (hgo : R.gameOver s.board = true) :
    bot_move R s es = (Except.error (), s, es) ∧
    (R.parseUci s.board mv = none → player_move R s mv es = (Except.error (), s, es)) ∧
    (∀ m : Move, R.parseUci s.board mv = some m → R.legal s.board m = false →
      player_move R s mv es = (Except.error (), s, es)) := by
  refine ⟨?_, fun hp => player_move_parse_fail R s mv es hp,
    fun m hp hl => player_move_illegal R s mv es m hp hl⟩
  unfold bot_move
  rw [hgo]
  simp

/-- Witness for the amended claim C4: a mated position rejects both the bot
request and a (necessarily illegal) human move. -/
theorem game_over_rejections_witness :
    bot_move matedRules initialSession (lossScript 5) =
      (Except.error (), initialSession, lossScript 5) ∧
    player_move matedRules initialSession "e2e4" (lossScript 5) =
      (Except.error (), initialSession, lossScript 5) := by
  have h := game_over_rejections matedRules initialSession (lossScript 5) "e2e4" rfl
  exact ⟨h.1, h.2.2 0 rfl rfl⟩

/-- Claim C3 at its failing input: when the evaluation request following
`board.push(best_move)` fails, `_strength` raises with every accumulator
(`total_loss`, `num_moves`, `cpl_losses`, `avg_losses`), the depth and the
strength pair unchanged — but the session board is left with the engine's
best move still pushed, because the exception skips `board.pop()`. -/
theorem strength_failure_keeps_pushed_board :
    (_strength initialSession 7 [some (EngineAns.bestMove 3), none]).1 = Except.error () ∧
    (_strength initialSession 7 [some (EngineAns.bestMove 3), none]).2.1.total_loss =
      initialSession.total_loss ∧
    (_strength initialSession 7 [some (EngineAns.bestMove 3), none]).2.1.num_moves =
      initialSession.num_moves ∧
    (_strength initialSession 7 [some (EngineAns.bestMove 3), none]).2.1.cpl_losses =
      initialSession.cpl_losses ∧
    (_strength initialSession 7 [some (EngineAns.bestMove 3), none]).2.1.avg_losses =
      initialSession.avg_losses ∧
    (_strength initialSession 7 [some (EngineAns.bestMove 3), none]).2.1.depth =
      initialSession.depth ∧
    (_strength initialSession 7 [some (EngineAns.bestMove 3), none]).2.1.strength =
      initialSession.strength ∧
    (_strength initialSession 7 [some (EngineAns.bestMove 3), none]).2.1.board = [3] ∧
    initialSession.board = [] :=
  ⟨rfl, rfl, rfl, rfl, rfl, rfl, rfl, rfl, rfl⟩

/-- Claim C10: any operation referencing an unknown session id — including
the plain `get_session` read — creates the default session: fresh starting
board, depth 4, strength `(1200, "Initial")`, empty histories and loss
sequences, zero accumulators. -/
theorem unknown_id_creates_default (reg : Registry) (id : String) (R : Rules)
    (h : reg.lookup id = none) :
    (_sess reg id).1 = initialSession ∧
    ((get_session R reg id).2).lookup id = some initialSession ∧
    initialSession.board = [] ∧ initialSession.depth = 4 ∧
    initialSession.strength = (1200, "Initial") ∧ initialSession.moves = [] ∧
    initialSession.cpl_losses = [] ∧ initialSession.avg_losses = [] ∧
    initialSession.total_loss = 0 ∧ initialSession.num_moves = 0 := by
  unfold get_session _sess
  rw [h]
  simp [List.lookup, initialSession]

/-- Witness for claim C10 on the empty registry. -/
theorem unknown_id_creates_default_witness :
    (_sess [] "alice").1 = initialSession ∧
    ((get_session permissiveRules [] "alice").2).lookup "alice" = some initialSession ∧
    initialSession.board = [] ∧ initialSession.depth = 4 ∧
    initialSession.strength = (1200, "Initial") ∧ initialSession.moves = [] ∧
    initialSession.cpl_losses = [] ∧ initialSession.avg_losses = [] ∧
    initialSession.total_loss = 0 ∧ initialSession.num_moves = 0 :=
  unknown_id_creates_default [] "alice" permissiveRules rfl

lemma adaptive_depth_bounds (e : ℤ) : 1 ≤ _adaptive_depth e ∧ _adaptive_depth e ≤ 8 := by
  unfold _adaptive_depth
  split_ifs <;> omega

/-- Accumulator, running-average and depth invariant of a session. -/
def accInv (s : Session) : Prop :=
  s.cpl_losses.length = s.num_moves ∧
  s.avg_losses.length = s.num_moves ∧
  (∀ x ∈ s.cpl_losses, 0 ≤ x) ∧
  s.total_loss = s.cpl_losses.sum ∧
  (∀ i, i < s.num_moves →
    s.avg_losses.getD i 0 = ((s.cpl_losses.take (i + 1)).sum : ℚ) / ((i + 1 : ℕ) : ℚ)) ∧
  1 ≤ s.depth ∧ s.depth ≤ 8

/-- Case analysis of `_strength`: a failing run raises and leaves every
field except the board unchanged; a successful run returns the estimated
rating and performs exactly one clamped non-negative accumulator update. -/
lemma strength_result (sess : Session) (move : Move) (es : EngineScript) :
    ((_strength sess move es).1 = Except.error () ∧
     (_strength sess move es).2.1.depth = sess.depth ∧
     (_strength sess move es).2.1.moves = sess.moves ∧
     (_strength sess move es).2.1.strength = sess.strength ∧
     (_strength sess move es).2.1.total_loss = sess.total_loss ∧
     (_strength sess move es).2.1.num_moves = sess.num_moves ∧
     (_strength sess move es).2.1.cpl_losses = sess.cpl_losses ∧
     (_strength sess move es).2.1.avg_losses = sess.avg_losses) ∨
    (∃ loss e str, 0 ≤ loss ∧
      (_strength sess move es).1 = Except.ok (e, str) ∧
      _estimate_elo ((((sess.total_loss + loss : ℤ) : ℚ) /
        ((sess.num_moves + 1 : ℕ) : ℚ) : ℚ) : ℝ) = e ∧
      (_strength sess move es).2.1 = { sess with
        cpl_losses := sess.cpl_losses ++ [loss],
        total_loss := sess.total_loss + loss,
        num_moves := sess.num_moves + 1,
        avg_losses := sess.avg_losses ++
          [((sess.total_loss + loss : ℤ) : ℚ) / ((sess.num_moves + 1 : ℕ) : ℚ)],
        depth := _adaptive_depth e }) := by
  rcases es with _ | ⟨_ | ⟨m1 | v1⟩, es1⟩
  · exact Or.inl ⟨rfl, rfl, rfl, rfl, rfl, rfl, rfl, rfl⟩
  · exact Or.inl ⟨rfl, rfl, rfl, rfl, rfl, rfl, rfl, rfl⟩
  · rcases es1 with _ | ⟨_ | ⟨m2 | v2⟩, es2⟩
    · exact Or.inl ⟨rfl, rfl, rfl, rfl, rfl, rfl, rfl, rfl⟩
    · exact Or.inl ⟨rfl, rfl, rfl, rfl, rfl, rfl, rfl, rfl⟩
    · exact Or.inl ⟨rfl, rfl, rfl, rfl, rfl, rfl, rfl, rfl⟩
    · rcases es2 with _ | ⟨_ | ⟨m3 | v3⟩, es3⟩
      · exact Or.inl ⟨rfl, rfl, rfl, rfl, rfl, rfl, rfl, rfl⟩
      · exact Or.inl ⟨rfl, rfl, rfl, rfl, rfl, rfl, rfl, rfl⟩
      · exact Or.inl ⟨rfl, rfl, rfl, rfl, rfl, rfl, rfl, rfl⟩
      · exact Or.inr ⟨max 0 (v3 - v2), _, _, le_max_left _ _, rfl, rfl, rfl⟩
  · exact Or.inl ⟨rfl, rfl, rfl, rfl, rfl, rfl, rfl, rfl⟩

lemma accInv_init : accInv initialSession := by
  refine ⟨rfl, rfl, ?_, rfl, ?_, ?_, ?_⟩
  · intro x hx
    simp [initialSession] at hx
  · intro i hi
    simp [initialSession] at hi
  · norm_num [initialSession]
  · norm_num [initialSession]

lemma accInv_reset (s : Session) (d : Int) (h1 : 1 ≤ d) (h2 : d ≤ 8) :
    accInv (new_session s d) := by
  refine ⟨rfl, rfl, ?_, rfl, ?_, h1, h2⟩
  · intro x hx
    simp [new_session] at hx
  · intro i hi
    simp [new_session] at hi

lemma accInv_strength (sess : Session) (move : Move) (es : EngineScript)
    (h : accInv sess) : accInv (_strength sess move es).2.1 := by
  obtain ⟨i1, i2, i3, i4, i5, i6, i7⟩ := h
  rcases strength_result sess move es with
    ⟨_, hd, _, _, ht, hn, hc, ha⟩ | ⟨loss, e, str, hloss, _, _, heq⟩
  · exact ⟨by rw [hc, hn]; exact i1, by rw [ha, hn]; exact i2, by rw [hc]; exact i3,
      by rw [ht, hc]; exact i4, by rw [ha, hc, hn]; exact i5,
      by rw [hd]; exact i6, by rw [hd]; exact i7⟩
  · rw [heq]
    refine ⟨by simp [i1], by simp [i2], ?_, ?_, ?_,
      (adaptive_depth_bounds e).1, (adaptive_depth_bounds e).2⟩
    · intro x hx
      rcases List.mem_append.mp hx with hx | hx
      · exact i3 x hx
      · rw [List.mem_singleton.mp hx]
        exact hloss
    · rw [i4, List.sum_append, List.sum_singleton]
    · intro i hi
      replace hi : i < sess.num_moves + 1 := hi
      show (sess.avg_losses ++ [_]).getD i 0 = _
      rcases Nat.lt_or_ge i sess.num_moves with hlt | hge
      · rw [List.getD_append _ _ _ _ (by rw [i2]; exact hlt)]
        rw [List.take_append_of_le_length (by rw [i1]; omega)]
        exact i5 i hlt
      · have hieq : i = sess.num_moves := by omega
        subst hieq
        rw [show sess.num_moves = sess.avg_losses.length from i2.symm,
          List.getD_eq_getElem _ _ (by simp),
          List.getElem_concat_length _ _ _ rfl]
        rw [List.take_of_length_le (by simp [i1, ← i2]), List.sum_append, List.sum_singleton,
          ← i4, i2]

lemma accInv_player_move (R : Rules) (s : Session) (mv : String) (es : EngineScript)
    (h : accInv s) : accInv (player_move R s mv es).2.1 := by
  unfold player_move
  rcases hp : R.parseUci s.board mv with _ | m
  · exact h
  · dsimp only
    by_cases hl : R.legal s.board m = true
    · rw [if_pos hl]
      have hstr := accInv_strength s m es h
      rcases hs : _strength s m es with ⟨r, s1, es1⟩
      rw [hs] at hstr
      rcases r with e | st
      · exact hstr
      · exact hstr
    · rw [if_neg hl]
      exact h

lemma accInv_bot_move (R : Rules) (s : Session) (es : EngineScript) (h : accInv s) :
    accInv (bot_move R s es).2.1 := by
  unfold bot_move
  split_ifs
  · exact h
  · exact h
  · rcases hp : engPlay es with ⟨r, es1⟩
    rcases r with e | m
    · exact h
    · exact h

/-- Every session state reachable through the endpoints satisfies the
accumulator/depth invariant. -/
lemma reachable_accInv {s : Session} (h : Reachable s) : accInv s := by
  induction h with
  | init => exact accInv_init
  | reset s d _ h1 h2 _ => exact accInv_reset s d h1 h2
  | human s R mv es _ ih => exact accInv_player_move R s mv es ih
  | bot s R es _ ih => exact accInv_bot_move R s es ih

/-- One successful human move against the permissive oracle with a scripted
raw centipawn loss of `l`. -/
noncomputable def demoStep (s : Session) (l : Int) : Session :=
  (player_move permissiveRules s "e2e4" (lossScript l)).2.1

/-- The session after four successful human moves with raw losses
20, 40, 30, 10 — the spec's running-average example. -/
noncomputable def demoSession : Session :=
  demoStep (demoStep (demoStep (demoStep initialSession 20) 40) 30) 10

lemma reachable_demoSession : Reachable demoSession :=
  Reachable.human _ permissiveRules "e2e4" (lossScript 10)
    (Reachable.human _ permissiveRules "e2e4" (lossScript 30)
      (Reachable.human _ permissiveRules "e2e4" (lossScript 40)
        (Reachable.human _ permissiveRules "e2e4" (lossScript 20) Reachable.init)))

lemma demoStep_fields (s : Session) (l : Int) (hl : 0 ≤ l) :
    (demoStep s l).cpl_losses = s.cpl_losses ++ [l] ∧
    (demoStep s l).avg_losses =
      s.avg_losses ++ [((s.total_loss + l : ℤ) : ℚ) / ((s.num_moves + 1 : ℕ) : ℚ)] ∧
    (demoStep s l).total_loss = s.total_loss + l ∧
    (demoStep s l).num_moves = s.num_moves + 1 := by
  have hmax : max 0 (l - 0) = l := by rw [sub_zero]; exact max_eq_right hl
  refine ⟨?_, ?_, ?_, rfl⟩
  · show s.cpl_losses ++ [max 0 (l - 0)] = _
    rw [hmax]
  · show s.avg_losses ++
      [((s.total_loss + max 0 (l - 0) : ℤ) : ℚ) / ((s.num_moves + 1 : ℕ) : ℚ)] = _
    rw [hmax]
  · show s.total_loss + max 0 (l - 0) = _
    rw [hmax]

lemma demoSession_losses :
    demoSession.cpl_losses = [20, 40, 30, 10] ∧ demoSession.avg_losses = [20, 30, 30, 25] := by
  obtain ⟨c1, a1, t1, n1⟩ := demoStep_fields initialSession 20 (by norm_num)
  obtain ⟨c2, a2, t2, n2⟩ := demoStep_fields (demoStep initialSession 20) 40 (by norm_num)
  obtain ⟨c3, a3, t3, n3⟩ :=
    demoStep_fields (demoStep (demoStep initialSession 20) 40) 30 (by norm_num)
  obtain ⟨c4, a4, t4, n4⟩ :=
    demoStep_fields (demoStep (demoStep (demoStep initialSession 20) 40) 30) 10 (by norm_num)
  constructor
  · show (demoStep (demoStep (demoStep (demoStep initialSession 20) 40) 30) 10).cpl_losses = _
    rw [c4, c3, c2, c1]
    rfl
  · show (demoStep (demoStep (demoStep (demoStep initialSession 20) 40) 30) 10).avg_losses = _
    rw [a4, a3, a2, a1, t3, t2, t1, n3, n2, n1]
    norm_num [initialSession]

/-- Claim C6: in every reachable session state, the i-th stored running
average equals the arithmetic mean of the first i+1 per-move losses; on the
demonstration per-move losses [20, 40, 30, 10] the stored averages are
exactly [20, 30, 30, 25]. -/
theorem running_average_is_mean :
    (∀ s : Session, Reachable s → ∀ i, i < s.num_moves →
      s.avg_losses.getD i 0 = ((s.cpl_losses.take (i + 1)).sum : ℚ) / ((i + 1 : ℕ) : ℚ)) ∧
    demoSession.cpl_losses = [20, 40, 30, 10] ∧
    demoSession.avg_losses = [20, 30, 30, 25] :=
  ⟨fun _ hs i hi => (reachable_accInv hs).2.2.2.2.1 i hi,
   demoSession_losses.1, demoSession_losses.2⟩

/-- Witness for claim C6 at the demonstration state and its last index. -/
theorem running_average_is_mean_witness :
    demoSession.avg_losses.getD 3 0 =
      ((demoSession.cpl_losses.take (3 + 1)).sum : ℚ) / ((3 + 1 : ℕ) : ℚ) :=
  running_average_is_mean.1 demoSession reachable_demoSession 3 (by decide)

/-- Claim C7: in every reachable session state the per-move loss list and
the running-average list both have length `num_moves`, and every per-move
loss entry is non-negative (negative raw loss is clamped to zero). -/
theorem loss_lists_length_nonneg (s : Session) (h : Reachable s) :
    s.cpl_losses.length = s.num_moves ∧ s.avg_losses.length = s.num_moves ∧
    ∀ x ∈ s.cpl_losses, 0 ≤ x :=
  ⟨(reachable_accInv h).1, (reachable_accInv h).2.1, (reachable_accInv h).2.2.1⟩

/-- Witness for claim C7 after one successful human move. -/
theorem loss_lists_length_nonneg_witness :
    (demoStep initialSession 20).cpl_losses.length = (demoStep initialSession 20).num_moves ∧
    (demoStep initialSession 20).avg_losses.length = (demoStep initialSession 20).num_moves ∧
    ∀ x ∈ (demoStep initialSession 20).cpl_losses, 0 ≤ x :=
  loss_lists_length_nonneg (demoStep initialSession 20)
    (Reachable.human initialSession permissiveRules "e2e4" (lossScript 20) Reachable.init)

/-- Claim C8: in every reachable session state the depth is in [1, 8];
reset stores the caller-supplied request-validated depth verbatim; and a
successful strength evaluation sets the depth to exactly the
depth-selection rule applied to the rating it returns. -/
theorem depth_always_in_range :
    (∀ s : Session, Reachable s → 1 ≤ s.depth ∧ s.depth ≤ 8) ∧
    (∀ (s : Session) (d : ℤ), 1 ≤ d → d ≤ 8 → (new_session s d).depth = d) ∧
    (∀ (sess : Session) (move : Move) (es : EngineScript),
      (_strength sess move es).1.isOk = true →
      ∃ r : Int × String, (_strength sess move es).1 = Except.ok r ∧
        (_strength sess move es).2.1.depth = _adaptive_depth r.1) := by
  refine ⟨fun s hs => ⟨(reachable_accInv hs).2.2.2.2.2.1, (reachable_accInv hs).2.2.2.2.2.2⟩,
    fun s d _ _ => rfl, fun sess move es hok => ?_⟩
  rcases strength_result sess move es with ⟨herr, _⟩ | ⟨loss, e, str, _, hok2, helo, heq⟩
  · rw [herr] at hok
    exact absurd hok (by decide)
  · exact ⟨(e, str), hok2, by rw [heq]⟩

/-- Witness for claim C8: the initial session, a reset to depth 3, and one
successful strength evaluation. -/
theorem depth_always_in_range_witness :
    (1 ≤ initialSession.depth ∧ initialSession.depth ≤ 8) ∧
    (new_session initialSession 3).depth = 3 ∧
    (∃ r : Int × String, (_strength initialSession 0 (lossScript 20)).1 = Except.ok r ∧
      (_strength initialSession 0 (lossScript 20)).2.1.depth = _adaptive_depth r.1) :=
  ⟨depth_always_in_range.1 initialSession Reachable.init,
   depth_always_in_range.2.1 initialSession 3 (by norm_num) (by norm_num),
   depth_always_in_range.2.2 initialSession 0 (lossScript 20) rfl⟩

end ChessBot
